import Mathlib

/-!
Verification of the market-research report pipeline (`streamlit_app.py`).

Strings are modelled as lists of characters (`Str := List Char`).  The
source's Python string operations (`strip`, `split`, `count`, `replace`,
and the two `re` patterns it uses) are embedded as executable functions
on `Str`.  Unicode-aware Python predicates (`isalpha`, `isspace`, ...)
are modelled at ASCII scope, which covers every input the claims mention.
Recursions that consume a variable number of characters per step are
fuelled (fuel `s.length` always suffices, and is what the wrappers pass)
so that every definition is structural and kernel-evaluable.
-/

abbrev Str := List Char

/-- Backtick character, written via its code point. -/
def btChar : Char := Char.ofNat 96

/-- Apostrophe character, written via its code point. -/
def apoChar : Char := Char.ofNat 39

/-- Python `str.isspace` / regex `\s`, ASCII scope: space, tab, LF, CR, VT, FF. -/
def pyIsSpace (c : Char) : Bool :=
  c == ' ' || c == '\t' || c == '\n' || c == '\r' || c == '\x0b' || c == '\x0c'

/-- Python `str.isalpha`, ASCII scope. -/
def pyIsAlpha (c : Char) : Bool :=
  decide (('a' ≤ c ∧ c ≤ 'z') ∨ ('A' ≤ c ∧ c ≤ 'Z'))

/-- Python `str.isdigit` / regex `\d`, ASCII scope. -/
def pyIsDigit (c : Char) : Bool :=
  decide ('0' ≤ c ∧ c ≤ '9')

/-- Python `str.isalnum`, ASCII scope. -/
def pyIsAlnum (c : Char) : Bool := pyIsAlpha c || pyIsDigit c

/-- Count of a single character in a string: Python `s.count(c)` for a
one-character needle. -/
def countc (c : Char) : Str → Nat
  | [] => 0
  | a :: r => (if a = c then 1 else 0) + countc c r

/-- Python `s.count(cc)` for the two-character needles `"**"` and `"__"`:
non-overlapping occurrences of the doubled character `c`, scanning left to
right. -/
def countPair (c : Char) : Str → Nat
  | a :: b :: r => if a = c ∧ b = c then 1 + countPair c r else countPair c (b :: r)
  | _ => 0

/-- Python `s.startswith(p)` on list-of-char strings. -/
def pyStarts : Str → Str → Bool
  | [], _ => true
  | _ :: _, [] => false
  | a :: p, b :: s => a == b && pyStarts p s

/-- Drop leading characters satisfying `p` (helper for Python `strip`). -/
def pyDropWhile (p : Char → Bool) : Str → Str
  | [] => []
  | c :: r => if p c then pyDropWhile p r else c :: r

/-- Python `str.strip()` with no argument: remove leading and trailing
whitespace. -/
def pyStrip (s : Str) : Str :=
  List.reverse (pyDropWhile pyIsSpace (List.reverse (pyDropWhile pyIsSpace s)))

/-- Split a string at every character satisfying `p`, keeping empty pieces:
the skeleton shared by Python `split('\n')` and `split()`. -/
def splitOnP (p : Char → Bool) : Str → List Str
  | [] => [[]]
  | a :: rest =>
    match splitOnP p rest with
    | [] => [[]]
    | g :: gs => if p a then [] :: g :: gs else (a :: g) :: gs

/-- Python `'\n'.join(lines)`. -/
def joinNl : List Str → Str
  | [] => []
  | [l] => l
  | l :: l' :: ls => l ++ '\n' :: joinNl (l' :: ls)

/-- Python `len(text.split())`: whitespace-run splitting discards empty
pieces, so the word count is the number of non-empty groups. -/
def countWords (s : Str) : Nat :=
  ((splitOnP pyIsSpace s).filter (fun w => !w.isEmpty)).length

/-- Python `s.replace(p, r)` (non-overlapping, left to right), fuelled so the
recursion is structural; fuel `s.length` always suffices because every step
consumes at least one input character. -/
def pyReplaceF (p r : Str) : Nat → Str → Str
  | 0, s => s
  | _ + 1, [] => []
  | f + 1, c :: rest =>
    if pyStarts p (c :: rest) then r ++ pyReplaceF p r f (List.drop p.length (c :: rest))
    else c :: pyReplaceF p r f rest

/-- Python `s.replace(p, r)` with sufficient fuel. -/
def pyReplace (p r : Str) (s : Str) : Str := pyReplaceF p r s.length s

/-! ## Input validation (`is_meaningful_text`, driver branch) -/

/-- Characters counted as valid by the 50% check of `is_meaningful_text`:
`c.isalnum() or c.isspace() or c in '-&,.'` (line 166). -/
def meaningfulValidChar (c : Char) : Bool :=
  pyIsAlnum c || pyIsSpace c || c == '-' || c == '&' || c == ',' || c == '.'

/-- Source `is_meaningful_text` (lines 145-172).  The Python float comparison
`valid_chars / len(text) < 0.5` is expressed exactly as
`2 * valid_chars < len(text)` over the integers. -/
def is_meaningful_text (text : Str) : Bool :=
  let t := pyStrip text
  if t.length = 0 then false
  else if t.length < 2 then false
  else
    let alpha_count := (t.filter pyIsAlpha).length
    if alpha_count < 2 then false
    else
      let valid_chars := (t.filter meaningfulValidChar).length
      if 2 * valid_chars < t.length then false
      else true

/-- Branches of the driver's input-validation step. -/
inductive InputAction where
  | warnEmpty
  | errInvalid
  | proceed
deriving DecidableEq

/-- Driver branch at lines 519-527: empty check, then meaningfulness check;
network (LLM / retriever) calls happen only under the final `else`, modelled
as `proceed`. -/
def inputValidationStep (industry_input : Str) : InputAction :=
  if pyStrip industry_input = [] then .warnEmpty
  else if !is_meaningful_text industry_input then .errInvalid
  else .proceed

/-! ## Classifier-style calls and their error handling -/

/-- Failure kinds a Python `except Exception` clause can receive; the handler
sees only `str(e)`, recorded in the payload. -/
inductive PyExc where
  | authFailure (msg : String)
  | quotaExceeded (msg : String)
  | networkError (msg : String)
  | jsonError (msg : String)
deriving DecidableEq

/-- Python `str(e)`. -/
def PyExc.str : PyExc → String
  | .authFailure m => m
  | .quotaExceeded m => m
  | .networkError m => m
  | .jsonError m => m

/-- Outcome of a pipeline step: a value, or `st.stop()` after the listed
messages were shown (`st.error` then `st.warning`). -/
inductive StepResult (α : Type) where
  | ok (a : α)
  | halted (msgs : List String)
deriving DecidableEq

/-- Shared `except` handler of the three classifier-style calls (lines
233-236, 258-261, 304-307): an `st.error` with a task-specific prefix echoing
`str(e)`, a fixed `st.warning`, then `st.stop()`.  The handler never inspects
the failure kind, only `str(e)`. -/
def classifierHalt (task : String) (e : PyExc) : List String :=
  ["⚠️ **API Error**: Failed to " ++ task ++ ". Error: " ++ e.str,
   "Please verify your API key is valid and has sufficient quota."]

/-- Parsed JSON contract of the grammar check (lines 218-223). -/
structure GrammarResult where
  has_issues : Bool
  corrected_text : String
  issues_found : List String
deriving DecidableEq

/-- Parsed JSON contract of industry validation (lines 244-248). -/
structure ValidationResult where
  is_valid : Bool
  suggestions : List String
deriving DecidableEq

/-- Source `check_grammar_and_typos` (lines 176-236): a single LLM invocation
whose combined invoke-and-JSON-parse outcome is `resp` (any raised exception,
network/auth/quota or `json.loads`, lands in the `except` handler). -/
def check_grammar_and_typos (resp : Except PyExc GrammarResult) : StepResult GrammarResult :=
  match resp with
  | .ok g => .ok g
  | .error e => .halted (classifierHalt ("check grammar") e)

/-- Source `validate_industry` (lines 240-261), same shape. -/
def validate_industry (resp : Except PyExc ValidationResult) : StepResult ValidationResult :=
  match resp with
  | .ok v => .ok v
  | .error e => .halted (classifierHalt ("validate industry") e)

/-! ## Re-ranking -/

/-- Retrieved document: `title` and `source` model `doc.metadata.get(...)`
(absent keys give `none`), `page_content` the bounded-length text. -/
structure Document where
  title : Option String
  source : Option String
  page_content : String
deriving DecidableEq

/-- Inner loop of `rerank_results` (lines 293-299): for each selected title in
response order, append the first document whose metadata title equals it
exactly (`break` after the first hit); titles with no match are dropped. -/
def rerankLoop (results : List Document) : List String → List Document
  | [] => []
  | t :: ts =>
    match results.find? (fun d => d.title == some t) with
    | some d => d :: rerankLoop results ts
    | none => rerankLoop results ts

/-- Source `rerank_results` (lines 265-307).  With fewer than 6 documents it
returns before any LLM call; otherwise `resp` is the single invoke-and-parse
outcome (a JSON array of titles on success).  The `Nat` component counts LLM
calls issued. -/
def rerank_results (industry : String) (results : List Document)
    (resp : Except PyExc (List String)) : StepResult (List Document × Nat) :=
  if results.length < 6 then .ok (results, 0)
  else
    match resp with
    | .ok selected_titles => .ok ((rerankLoop results selected_titles).take 5, 1)
    | .error e => .halted (classifierHalt ("re-rank results") e)

/-! ## The word-count regular expressions of `clean_report_text`

The two patterns are compiled to item lists and run with Python `re`'s
greedy-with-backtracking semantics: an optional or starred item first tries
to consume and falls back to the shorter alternative on failure of the rest
of the pattern. -/

/-- One item of a compiled regular expression: a mandatory character class, a
greedy optional character, or a greedy star over a character class. -/
inductive RItem where
  | chr (p : Char → Bool)
  | optc (p : Char → Bool)
  | star (p : Char → Bool)

/-- Regex `[Ww]`. -/
def isWw (c : Char) : Bool := c == 'w' || c == 'W'

/-- Regex `[Cc]`. -/
def isCc (c : Char) : Bool := c == 'c' || c == 'C'

/-- Run a compiled pattern at the head of `s`, returning the remainder after
the match.  Fuel decreases on every call; `s.length + items.length + 1` is
always enough because each step either consumes a character or discharges an
item. -/
def matchItemsF : Nat → List RItem → Str → Option Str
  | 0, _, _ => none
  | _ + 1, [], s => some s
  | _ + 1, .chr _ :: _, [] => none
  | f + 1, .chr p :: ps, c :: r => if p c then matchItemsF f ps r else none
  | f + 1, .optc _ :: ps, [] => matchItemsF f ps []
  | f + 1, .optc p :: ps, c :: r =>
    if p c then
      match matchItemsF f ps r with
      | some rem => some rem
      | none => matchItemsF f ps (c :: r)
    else matchItemsF f ps (c :: r)
  | f + 1, .star _ :: ps, [] => matchItemsF f ps []
  | f + 1, .star p :: ps, c :: r =>
    if p c then
      match matchItemsF f (.star p :: ps) r with
      | some rem => some rem
      | none => matchItemsF f ps (c :: r)
    else matchItemsF f ps (c :: r)

/-- Tail of the substitution pattern after `\(?\s*[Ww]`. -/
def wcRest : List RItem :=
  [.chr (fun c => c == 'o'), .chr (fun c => c == 'r'), .chr (fun c => c == 'd'),
   .chr pyIsSpace, .star pyIsSpace,
   .chr isCc, .chr (fun c => c == 'o'), .chr (fun c => c == 'u'),
   .chr (fun c => c == 'n'), .chr (fun c => c == 't'),
   .star pyIsSpace, .optc (fun c => c == ':'), .star pyIsSpace,
   .chr pyIsDigit, .star pyIsDigit, .star pyIsSpace,
   .chr isWw, .chr (fun c => c == 'o'), .chr (fun c => c == 'r'), .chr (fun c => c == 'd'),
   .optc (fun c => c == 's'), .star pyIsSpace, .optc (fun c => c == ')')]

/-- Line 314's pattern `\(?\s*[Ww]ord\s+[Cc]ount\s*:?\s*\d+\s*[Ww]ords?\s*\)?`
(`\s+` and `\d+` are a mandatory character followed by a star). -/
def wcPat : List RItem :=
  .optc (fun c => c == '(') :: .star pyIsSpace :: .chr isWw :: wcRest

/-- Line 317's anchored search pattern `^\s*\(?\s*[Ww]ord\s+[Cc]ount`. -/
def linePat : List RItem :=
  .star pyIsSpace :: .optc (fun c => c == '(') :: .star pyIsSpace :: .chr isWw ::
  [.chr (fun c => c == 'o'), .chr (fun c => c == 'r'), .chr (fun c => c == 'd'),
   .chr pyIsSpace, .star pyIsSpace,
   .chr isCc, .chr (fun c => c == 'o'), .chr (fun c => c == 'u'),
   .chr (fun c => c == 'n'), .chr (fun c => c == 't')]

/-- Scan of `re.sub(wcPat, '', text)`: at every position try a match; on a
match drop the matched span and continue after it, otherwise keep the
character.  The `rem.length < s.length` guard (match consumed at least one
character) is always true for `wcPat`, whose mandatory items consume 11
characters; it keeps the fuelled recursion total. -/
def pySubWCF : Nat → Str → Str
  | 0, s => s
  | _ + 1, [] => []
  | f + 1, c :: rest =>
    match matchItemsF ((c :: rest).length + 40) wcPat (c :: rest) with
    | some rem =>
      if rem.length < (c :: rest).length then pySubWCF f rem
      else c :: pySubWCF f rest
    | none => c :: pySubWCF f rest

/-- Line 314: `re.sub(r'\(?\s*[Ww]ord...\)?', '', text)`. -/
def pySubWC (s : Str) : Str := pySubWCF s.length s

/-- Line 317: `re.search(r'^\s*\(?\s*[Ww]ord\s+[Cc]ount', line)` is a match
anchored at the start of the line. -/
def lineHasWC (line : Str) : Bool :=
  (matchItemsF (line.length + 40) linePat line).isSome

/-- Source `clean_report_text` (lines 311-318): global word-count
substitution, then drop lines that still start with a word-count marker,
re-join and strip. -/
def clean_report_text (text : Str) : Str :=
  let text := pySubWC text
  let lines := splitOnP (fun c => c == '\n') text
  let cleaned_lines := lines.filter (fun line => !lineHasWC line)
  pyStrip (joinNl cleaned_lines)

/-! ## Markdown sanitizer -/

/-- Index of the first position whose two characters are both `m` (used to
implement the lazy `(.+?)` of `\*\*(.+?)\*\*`). -/
def findPair (m : Char) : Str → Option Nat
  | a :: b :: r => if a = m ∧ b = m then some 0 else (findPair m (b :: r)).map (· + 1)
  | _ => none

/-- Smallest index `j ≥ 1` with a double-`m` at `j`: the lazy content of
`\*\*(.+?)\*\*` must be non-empty, so the closing pair is searched from
index 1. -/
def findPairFrom1 (m : Char) : Str → Option Nat
  | [] => none
  | _ :: t => (findPair m t).map (· + 1)

/-- Protection marker `⟪BOLD⟫` of lines 352-359. -/
def LBmark : Str := ("⟪BOLD⟫").toList

/-- Protection marker `⟪/BOLD⟫` of lines 352-359. -/
def RBmark : Str := ("⟪/BOLD⟫").toList

/-- Lines 352-353: `re.sub(r'\*\*(.+?)\*\*', '⟪BOLD⟫\1⟪/BOLD⟫', line)` (and
the `__` twin with `m := '_'`).  At a double-`m` the engine lazily finds the
nearest closing double-`m` after a non-empty content; without one it advances
a single character, exactly as the backtracking engine does. -/
def protectWithF (m : Char) : Nat → Str → Str
  | 0, s => s
  | _ + 1, [] => []
  | _ + 1, [c] => [c]
  | f + 1, a :: b :: t =>
    if a = m ∧ b = m then
      match findPairFrom1 m t with
      | some j =>
        LBmark ++ List.take j t ++ RBmark ++ protectWithF m f (List.drop (j + 2) t)
      | none => a :: protectWithF m f (b :: t)
    else a :: protectWithF m f (b :: t)

/-- Triple backtick. -/
def bt3 : Str := [btChar, btChar, btChar]

/-- Index of the first occurrence of ` ``` `. -/
def findBt3 : Str → Option Nat
  | [] => none
  | c :: rest => if pyStarts bt3 (c :: rest) then some 0 else (findBt3 rest).map (· + 1)

/-- Line 340: `re.sub(r'```[\s\S]*?```', '', line)` — at a triple backtick,
lazily find the nearest closing triple backtick (possibly with empty
content), drop the whole span and continue after it; an unclosed opener
advances one character. -/
def rcbF : Nat → Str → Str
  | 0, s => s
  | _ + 1, [] => []
  | f + 1, c :: rest =>
    if pyStarts bt3 (c :: rest) then
      match findBt3 (List.drop 3 (c :: rest)) with
      | some j => rcbF f (List.drop (j + 3) (List.drop 3 (c :: rest)))
      | none => c :: rcbF f rest
    else c :: rcbF f rest

/-- Lines 352-359, the repair applied to a line with unclosed formatting:
protect `**...**` then `__...__` as `⟪BOLD⟫...⟪/BOLD⟫`, delete every
remaining `*` and `_`, then restore both markers as `**`. -/
def sanitizeFix (l2 : Str) : Str :=
  pyReplace RBmark ['*', '*']
    (pyReplace LBmark ['*', '*']
      (pyReplace ['_'] []
        (pyReplace ['*'] []
          (protectWithF '_' (protectWithF '*' l2.length l2).length
            (protectWithF '*' l2.length l2)))))

/-- Lines 343-361 applied to the backtick-free line `l2`:
`asterisk_count = line.count('*') - line.count('**') * 2` (and the `_`
twin); on an odd count run the repair, otherwise keep the line. -/
def sanitizeBody (l2 : Str) : Str :=
  if ((countc '*' l2 : Int) - (countPair '*' l2 : Int) * 2) % 2 ≠ 0 ∨
     ((countc '_' l2 : Int) - (countPair '_' l2 : Int) * 2) % 2 ≠ 0 then
    sanitizeFix l2
  else l2

/-- Per-line body of `sanitize_markdown` (lines 332-361): heading lines
(`line.strip().startswith('#')`) pass through; other lines lose code blocks
and backticks and then get the unclosed-formatting repair. -/
def sanitizeLine (line : Str) : Str :=
  if (pyStrip line).head? = some '#' then line
  else sanitizeBody (pyReplace [btChar] [] (rcbF line.length line))

/-- Source `sanitize_markdown` (lines 322-363): split into lines, fix each
line, re-join. -/
def sanitize_markdown (text : Str) : Str :=
  joinNl ((splitOnP (fun c => c == '\n') text).map sanitizeLine)

/-! ## Trim call and length-convergence controller -/

/-- Trim prompt of lines 369-389 (the f-string, with its two embedded
`target_words` interpolations). -/
def mkTrimPrompt (target_words : Nat) (report_text : Str) : Str :=
  ("The following report is too long. Please trim it to approximately ").toList
  ++ (toString target_words).toList
  ++ (" words (MUST be between 400-500 words).\n\nPreserve:\n- The title and all section headings\n- Key information and main points\n- Professional tone and structure\n\nRemove:\n- Redundant details\n- Less critical information\n- Verbose phrasing\n\nIMPORTANT:\n- DO NOT include word count in the report (no \"Word Count:\" or similar text)\n- DO NOT use backticks (").toList
  ++ [btChar]
  ++ (") or code formatting\n- Use **bold** only for emphasis, no italic or code formatting\n\nReport to trim:\n").toList
  ++ report_text
  ++ ("\n\nReturn the trimmed report in markdown format, ensuring it").toList
  ++ [apoChar]
  ++ ("s ").toList
  ++ (toString target_words).toList
  ++ (" words or fewer (but at least 400 words). DO NOT include word count:").toList

/-- Line 398's `st.info` message. -/
def trimBackupInfo : String := "ℹ️ Using backup model (Gemma) for trimming..."

/-- Line 403's `st.error` message. -/
def trimFailErr (e : String) : String :=
  "⚠️ **API Error**: Failed to trim report. Error: " ++ e

/-- Line 404's `st.warning` message. -/
def trimFailWarn : String := "Returning original report."

/-- Source `trim_report` (lines 367-405): invoke the report model on the trim
prompt; on exception invoke the backup model on the same prompt; if that also
fails return the input text unchanged (non-fatal, no `st.stop`).
`report_llm` and `llm` are the two models as functions from prompt to
outcome; the second component collects the messages shown. -/
def trim_report (report_llm llm : Str → Except String Str) (report_text : Str)
    (target_words : Nat) : Str × List String :=
  match report_llm (mkTrimPrompt target_words report_text) with
  | .ok trimmed_text => (trimmed_text, [])
  | .error _ =>
    match llm (mkTrimPrompt target_words report_text) with
    | .ok trimmed_text => (trimmed_text, [trimBackupInfo])
    | .error fallback_error => (report_text, [trimFailErr fallback_error, trimFailWarn])

/-- Report artifact produced by `generate_report_with_validation`, with a
counter of corrective (trim) calls issued. -/
structure ReportResult where
  report_text : Str
  word_count : Nat
  status : String
  model_used : String
  trim_calls : Nat
deriving DecidableEq

/-- Lines 463-479, the length-convergence controller applied to the cleaned
and sanitized synthesis output: accept anything of at most 500 words as
`"success"`; otherwise issue exactly one trim call (target 480), re-clean,
re-sanitize, recount, and return `"trimmed"`. -/
def lengthControl (report_llm llm : Str → Except String Str) (report_text : Str)
    (model_used : String) : ReportResult :=
  let word_count := countWords report_text
  if word_count ≤ 500 then
    ⟨report_text, word_count, "success", model_used, 0⟩
  else
    let trimmed := (trim_report report_llm llm report_text 480).1
    let trimmed := clean_report_text trimmed
    let trimmed := sanitize_markdown trimmed
    ⟨trimmed, countWords trimmed, "trimmed", model_used, 1⟩

/-- Outcome of `generate_report_with_validation`: a report artifact, or
`st.stop()` after the listed messages. -/
inductive GenOutcome where
  | ok (r : ReportResult)
  | halted (msgs : List String)
deriving DecidableEq

/-- Messages of lines 459-460 (both synthesis models failed). -/
def genFailMsgs (e : String) : List String :=
  ["⚠️ **API Error**: Failed to generate report with both models. Error: " ++ e,
   "Please verify your API key is valid and has sufficient quota."]

/-- Source `generate_report_with_validation` (lines 409-479).
`report_llm_gen` / `llm_gen` are the synthesis outcomes of the primary and
backup models; a successful synthesis is cleaned and sanitized, then handed
to the length controller. -/
def generate_report_with_validation (report_llm_gen llm_gen : Except String Str)
    (report_llm llm : Str → Except String Str) : GenOutcome :=
  match report_llm_gen with
  | .ok raw =>
    .ok (lengthControl report_llm llm
      (sanitize_markdown (clean_report_text raw)) "Gemini 2.5-flash-lite")
  | .error _ =>
    match llm_gen with
    | .ok raw =>
      .ok (lengthControl report_llm llm
        (sanitize_markdown (clean_report_text raw)) "Gemma 3-27b-it (backup)")
    | .error e => .halted (genFailMsgs e)

/-- Word-count banner of lines 698-703: `st.success` inside the 400-500 band,
`st.warning` outside it. -/
inductive WcBanner where
  | ok (word_count : Nat)
  | warn (word_count : Nat)
deriving DecidableEq

/-- Lines 698-703. -/
def word_count_display (word_count : Nat) : WcBanner :=
  if 400 ≤ word_count ∧ word_count ≤ 500 then .ok word_count else .warn word_count

/-- Concrete text of `n` words, used by witnesses. -/
def mkWords : Nat → Str
  | 0 => []
  | n + 1 => 'a' :: ' ' :: mkWords n

/-- Concrete word-count line used by claim C7. -/
def wcLine : Str := ("(Word Count: 437 words)").toList

/-- The word-count line without its opening parenthesis. -/
def wcTail : Str := ("Word Count: 437 words)").toList

/-! ## Basic lemmas about the string model -/

theorem countc_append (c : Char) (l₁ l₂ : Str) :
    countc c (l₁ ++ l₂) = countc c l₁ + countc c l₂ := by
  induction l₁ with
  | nil => simp [countc]
  | cons a r ih => simp [countc, ih]; omega

theorem countc_take_le (c : Char) (n : Nat) (l : Str) :
    countc c (List.take n l) ≤ countc c l := by
  conv_rhs => rw [← List.take_append_drop n l]
  rw [countc_append]; omega

theorem countc_drop_le (c : Char) (n : Nat) (l : Str) :
    countc c (List.drop n l) ≤ countc c l := by
  conv_rhs => rw [← List.take_append_drop n l]
  rw [countc_append]; omega

theorem countc_eq_zero_iff (c : Char) (l : Str) :
    countc c l = 0 ↔ ∀ a ∈ l, a ≠ c := by
  induction l with
  | nil => simp [countc]
  | cons a r ih =>
    by_cases h : a = c <;> simp [countc, h, ih]

theorem pyStarts_append (p s : Str) (h : pyStarts p s = true) :
    s = p ++ List.drop p.length s := by
  induction p generalizing s with
  | nil => simp
  | cons a p ih =>
    cases s with
    | nil => simp [pyStarts] at h
    | cons b s =>
      simp only [pyStarts, Bool.and_eq_true, beq_iff_eq] at h
      obtain ⟨rfl, h2⟩ := h
      simpa using ih s h2

theorem pyStarts_false_of_head_ne (a : Char) (p : Str) (b : Char) (s : Str)
    (h : a ≠ b) : pyStarts (a :: p) (b :: s) = false := by
  simp [pyStarts, h]

/-- Zero-count preservation for `pyReplaceF`: if neither the input nor the
replacement contains `c`, the output does not either (any fuel). -/
theorem countc_pyReplaceF_zero (c : Char) (p r : Str) (f : Nat) (s : Str)
    (hr : countc c r = 0) (hs : countc c s = 0) :
    countc c (pyReplaceF p r f s) = 0 := by
  induction f generalizing s with
  | zero => simpa [pyReplaceF] using hs
  | succ f ih =>
    cases s with
    | nil => simp [pyReplaceF, countc]
    | cons a rest =>
      by_cases hpre : pyStarts p (a :: rest) = true
      · have hdrop : countc c (List.drop p.length (a :: rest)) = 0 := by
          have := countc_drop_le c p.length (a :: rest)
          omega
        simp only [pyReplaceF, hpre, if_true, countc_append]
        rw [ih _ hdrop]; omega
      · have ha : a ≠ c := by
          have := (countc_eq_zero_iff c (a :: rest)).mp hs
          exact this a (by simp)
        have hrest : countc c rest = 0 := by
          simp [countc, ha] at hs; omega
        simp [pyReplaceF, hpre, countc, ha, ih _ hrest]

/-- Parity preservation for `pyReplaceF`: if the pattern contains no `c` and
the replacement contains an even number of `c`, the parity of the count of
`c` is unchanged (any fuel). -/
theorem countc_pyReplaceF_parity (c : Char) (p r : Str) (f : Nat) (s : Str)
    (hp : countc c p = 0) (hr : countc c r % 2 = 0) :
    countc c (pyReplaceF p r f s) % 2 = countc c s % 2 := by
  induction f generalizing s with
  | zero => simp [pyReplaceF]
  | succ f ih =>
    cases s with
    | nil => simp [pyReplaceF]
    | cons a rest =>
      by_cases hpre : pyStarts p (a :: rest) = true
      · have hsplit := pyStarts_append p (a :: rest) hpre
        have hcount : countc c (a :: rest) =
            countc c p + countc c (List.drop p.length (a :: rest)) := by
          conv_lhs => rw [hsplit]
          exact countc_append c p _
        simp only [pyReplaceF, hpre, if_true, countc_append]
        have := ih (List.drop p.length (a :: rest))
        omega
      · simp only [pyReplaceF, hpre, if_false, Bool.false_eq_true, countc]
        have := ih rest
        have hcount : countc c (a :: rest) = (if a = c then 1 else 0) + countc c rest := rfl
        omega

/-- Single-character removal with full fuel empties the count: the model of
Python `s.replace(c, '')`. -/
theorem countc_pyReplaceF_single (c : Char) (f : Nat) (s : Str)
    (hf : s.length ≤ f) : countc c (pyReplaceF [c] [] f s) = 0 := by
  induction f generalizing s with
  | zero =>
    have : s = [] := by
      cases s with
      | nil => rfl
      | cons a r => simp at hf
    simp [this, pyReplaceF, countc]
  | succ f ih =>
    cases s with
    | nil => simp [pyReplaceF, countc]
    | cons a rest =>
      by_cases ha : a = c
      · have hpre : pyStarts [c] (a :: rest) = true := by simp [pyStarts, ha]
        simp only [pyReplaceF, hpre, if_true, List.nil_append]
        have : List.drop ([c] : Str).length (a :: rest) = rest := by simp
        rw [this]
        exact ih rest (by simp at hf; omega)
      · have hpre : pyStarts [c] (a :: rest) = false :=
          pyStarts_false_of_head_ne c [] a rest (fun h => ha h.symm)
        simp only [pyReplaceF, hpre, Bool.false_eq_true, if_false, countc,
          ih rest (by simp at hf; omega)]
        simp [ha]

/-- Identity of `pyReplaceF` when the pattern's first character never occurs
in the input (any fuel). -/
theorem pyReplaceF_id_of_no_head (c : Char) (p r : Str) (f : Nat) (s : Str)
    (hs : countc c s = 0) : pyReplaceF (c :: p) r f s = s := by
  induction f generalizing s with
  | zero => simp [pyReplaceF]
  | succ f ih =>
    cases s with
    | nil => simp [pyReplaceF]
    | cons a rest =>
      have ha : a ≠ c := (countc_eq_zero_iff c (a :: rest)).mp hs a (by simp)
      have hrest : countc c rest = 0 := by
        simp [countc, ha] at hs; omega
      have hpre : pyStarts (c :: p) (a :: rest) = false :=
        pyStarts_false_of_head_ne c p a rest (fun h => ha h.symm)
      simp [pyReplaceF, hpre, ih rest hrest]

theorem pyDropWhile_sublist (p : Char → Bool) (s : Str) :
    (pyDropWhile p s).Sublist s := by
  induction s with
  | nil => simp [pyDropWhile]
  | cons a r ih =>
    by_cases h : p a
    · simpa [pyDropWhile, h] using ih.cons a
    · simp [pyDropWhile, h]

theorem pyDropWhile_mem (p : Char → Bool) (s : Str) (x : Char)
    (hx : x ∈ pyDropWhile p s) : x ∈ s :=
  (pyDropWhile_sublist p s).mem hx

theorem splitOnP_ne_nil (p : Char → Bool) (s : Str) : splitOnP p s ≠ [] := by
  induction s with
  | nil => simp [splitOnP]
  | cons a rest ih =>
    simp only [splitOnP]
    cases h : splitOnP p rest with
    | nil => simp
    | cons g gs => by_cases hp : p a <;> simp [hp]

theorem splitOnP_mem_false (p : Char → Bool) (s : Str) :
    ∀ l ∈ splitOnP p s, ∀ c ∈ l, p c = false := by
  induction s with
  | nil => intro l hl c hc; simp [splitOnP] at hl; simp [hl] at hc
  | cons a rest ih =>
    intro l hl c hc
    simp only [splitOnP] at hl
    cases h : splitOnP p rest with
    | nil => exact absurd h (splitOnP_ne_nil p rest)
    | cons g gs =>
      rw [h] at hl
      by_cases hp : p a
      · simp [hp] at hl
        rcases hl with hl | hl | hl
        · simp [hl] at hc
        · exact ih g (by simp [h]) c (hl ▸ hc)
        · exact ih l (by simp [h, hl]) c hc
      · simp [hp] at hl
        rcases hl with hl | hl
        · subst hl
          rcases List.mem_cons.mp hc with rfl | hc'
          · simpa using hp
          · exact ih g (by simp [h]) c hc'
        · exact ih l (by simp [h, hl]) c hc

/-- Splitting a separator-free string produces the single piece. -/
theorem splitOnP_of_no_sep (p : Char → Bool) (l : Str)
    (hl : ∀ c ∈ l, p c = false) : splitOnP p l = [l] := by
  induction l with
  | nil => simp [splitOnP]
  | cons a rest ih =>
    have ha : p a = false := hl a (by simp)
    have hrest : ∀ c ∈ rest, p c = false := fun c hc => hl c (by simp [hc])
    simp [splitOnP, ih hrest, ha]

/-- Splitting `l ++ sep :: s` with separator-free `l` peels off `l`. -/
theorem splitOnP_append_sep (p : Char → Bool) (l s : Str) (sep : Char)
    (hsep : p sep = true) (hl : ∀ c ∈ l, p c = false) :
    splitOnP p (l ++ sep :: s) = l :: splitOnP p s := by
  induction l with
  | nil =>
    simp only [List.nil_append, splitOnP]
    cases h : splitOnP p s with
    | nil => exact absurd h (splitOnP_ne_nil p s)
    | cons g gs => simp [hsep]
  | cons a rest ih =>
    have ha : p a = false := hl a (by simp)
    have hrest : ∀ c ∈ rest, p c = false := fun c hc => hl c (by simp [hc])
    simp only [List.cons_append, splitOnP, List.append_eq]
    rw [ih hrest]
    simp [ha]

/-! ## Claim C4: input meaningfulness contract -/

/-- C4: `is_meaningful_text` returns false exactly when the whitespace-stripped
input is empty, is shorter than 2 characters, contains fewer than 2 alphabetic
characters, or has fewer than 50% of its characters among
alphanumeric/space/`-&,.`; in particular it is false on the empty string, on
any single character, and on `"@#$%"`; and whenever it is false the driver's
validation branch never reaches `proceed`, the only branch that issues
network (LLM or retriever) calls. -/
theorem C4_is_meaningful_contract :
    (∀ text : Str, is_meaningful_text text = false ↔
      (pyStrip text = [] ∨ (pyStrip text).length < 2 ∨
        ((pyStrip text).filter pyIsAlpha).length < 2 ∨
        2 * ((pyStrip text).filter meaningfulValidChar).length < (pyStrip text).length)) ∧
    is_meaningful_text [] = false ∧
    (∀ c : Char, is_meaningful_text [c] = false) ∧
    is_meaningful_text (("@#$%").toList) = false ∧
    (∀ text : Str, is_meaningful_text text = false →
      inputValidationStep text ≠ InputAction.proceed) := by
  refine ⟨?_, by decide, ?_, by decide, ?_⟩
  · intro text
    simp only [is_meaningful_text]
    split_ifs with h1 h2 h3 h4
    · simp [List.length_eq_zero.mp h1]
    · simp [h2]
    · simp [h3]
    · simp [h4]
    · simp only [Bool.true_eq_false, false_iff]
      push_neg
      refine ⟨?_, by omega, by omega, by omega⟩
      intro he
      rw [he] at h1
      simp at h1
  · intro c
    have h : (pyStrip [c]).length ≤ 1 := by
      by_cases hc : pyIsSpace c <;> simp [pyStrip, pyDropWhile, hc]
    simp only [is_meaningful_text]
    split_ifs <;> first | rfl | (exfalso; omega)
  · intro text h
    simp only [inputValidationStep, h]
    split_ifs <;> simp_all

/-- Witness for C4 at the concrete input `"@#$%"`. -/
theorem C4_witness :
    is_meaningful_text (("@#$%").toList) = false ∧
    inputValidationStep (("@#$%").toList) ≠ InputAction.proceed :=
  ⟨C4_is_meaningful_contract.2.2.2.1,
   C4_is_meaningful_contract.2.2.2.2 (("@#$%").toList) (by decide)⟩

/-! ## Claim C5: reranking contract -/

theorem rerankLoop_eq_filterMap (results : List Document) (ts : List String) :
    rerankLoop results ts =
      ts.filterMap (fun t => results.find? (fun d => d.title == some t)) := by
  induction ts with
  | nil => simp [rerankLoop]
  | cons t ts ih =>
    simp only [rerankLoop, List.filterMap_cons]
    cases h : results.find? (fun d => d.title == some t) <;> simp [h, ih]

/-- C5: `rerank_results` returns the input unchanged with no LLM call for
fewer than 6 documents (the result does not depend on the response); for at
least 6 documents and a title-array response it returns, in response order,
the first-match documents of the titles (unmatched titles dropped), truncated
to 5, with exactly one LLM call; and when the response names 5 titles that
each match a document, the result is exactly those 5 documents in response
order. -/
theorem C5_rerank_contract :
    (∀ (industry : String) (results : List Document)
        (resp resp' : Except PyExc (List String)),
      results.length < 6 →
        rerank_results industry results resp = .ok (results, 0) ∧
        rerank_results industry results resp = rerank_results industry results resp') ∧
    (∀ (industry : String) (results : List Document) (titles : List String),
      6 ≤ results.length →
        rerank_results industry results (.ok titles) =
          .ok ((titles.filterMap
            (fun t => results.find? (fun d => d.title == some t))).take 5, 1) ∧
        ((rerankLoop results titles).take 5).length ≤ 5 ∧
        (∀ d ∈ (rerankLoop results titles).take 5,
          ∃ t ∈ titles, results.find? (fun d' => d'.title == some t) = some d)) ∧
    (∀ (industry : String) (results : List Document) (t1 t2 t3 t4 t5 : String)
        (d1 d2 d3 d4 d5 : Document),
      6 ≤ results.length →
      results.find? (fun d => d.title == some t1) = some d1 →
      results.find? (fun d => d.title == some t2) = some d2 →
      results.find? (fun d => d.title == some t3) = some d3 →
      results.find? (fun d => d.title == some t4) = some d4 →
      results.find? (fun d => d.title == some t5) = some d5 →
      rerank_results industry results (.ok [t1, t2, t3, t4, t5]) =
        .ok ([d1, d2, d3, d4, d5], 1)) := by
  refine ⟨?_, ?_, ?_⟩
  · intro industry results resp resp' h
    constructor <;> simp [rerank_results, h]
  · intro industry results titles h
    have h6 : ¬ results.length < 6 := by omega
    refine ⟨by simp [rerank_results, h6, rerankLoop_eq_filterMap], ?_, ?_⟩
    · simp [List.length_take]
    · intro d hd
      have hd' : d ∈ rerankLoop results titles := List.mem_of_mem_take hd
      rw [rerankLoop_eq_filterMap] at hd'
      exact List.mem_filterMap.mp hd'
  · intro industry results t1 t2 t3 t4 t5 d1 d2 d3 d4 d5 h h1 h2 h3 h4 h5
    have h6 : ¬ results.length < 6 := by omega
    simp [rerank_results, h6, rerankLoop, h1, h2, h3, h4, h5]

/-- Witness for C5: six documents, a response naming five of them in a
shuffled order, and the resulting five documents in response order. -/
theorem C5_witness :
    rerank_results ("Fintech")
      [⟨some ("T1"), none, ""⟩, ⟨some ("T2"), none, ""⟩, ⟨some ("T3"), none, ""⟩,
       ⟨some ("T4"), none, ""⟩, ⟨some ("T5"), none, ""⟩, ⟨some ("T6"), none, ""⟩]
      (Except.ok ["T5", "T3", "T1", "T6", "T2"]) =
    StepResult.ok
      ([⟨some ("T5"), none, ""⟩, ⟨some ("T3"), none, ""⟩, ⟨some ("T1"), none, ""⟩,
        ⟨some ("T6"), none, ""⟩, ⟨some ("T2"), none, ""⟩], 1) :=
  C5_rerank_contract.2.2 ("Fintech")
    [⟨some ("T1"), none, ""⟩, ⟨some ("T2"), none, ""⟩, ⟨some ("T3"), none, ""⟩,
     ⟨some ("T4"), none, ""⟩, ⟨some ("T5"), none, ""⟩, ⟨some ("T6"), none, ""⟩]
    ("T5") ("T3") ("T1") ("T6") ("T2")
    ⟨some ("T5"), none, ""⟩ ⟨some ("T3"), none, ""⟩ ⟨some ("T1"), none, ""⟩
    ⟨some ("T6"), none, ""⟩ ⟨some ("T2"), none, ""⟩
    (by decide) (by decide) (by decide) (by decide) (by decide) (by decide)

/-! ## Claim C8: classifier error policy -/

/-- C8 counterexample: the claim says the surfaced message distinguishes the
cases "invalid key", "quota exceeded" and generic failure, but the handlers
of the classifier-style calls never inspect the failure kind: an
authentication failure, a quota failure and a network failure carrying the
same exception text produce identical user-visible messages, so the surfaced
message cannot distinguish the cases. -/
theorem C8_counterexample :
    check_grammar_and_typos (Except.error (PyExc.authFailure ("request failed"))) =
      check_grammar_and_typos (Except.error (PyExc.quotaExceeded ("request failed"))) ∧
    check_grammar_and_typos (Except.error (PyExc.quotaExceeded ("request failed"))) =
      check_grammar_and_typos (Except.error (PyExc.networkError ("request failed"))) ∧
    validate_industry (Except.error (PyExc.authFailure ("request failed"))) =
      validate_industry (Except.error (PyExc.quotaExceeded ("request failed"))) := by
  decide

/-- C8 (amended): any failure (malformed JSON, network, auth, quota) of a
classifier-style call is fatal: the step halts (`st.stop`) with no retry and
no fallback model; the surfaced messages are a fixed template echoing
`str(e)` plus one constant warning that mentions both key validity and
quota, with no per-case diagnosis — the handler output depends on the
exception only through `str(e)`. -/
theorem C8_classifier_error_policy :
    ∀ e : PyExc,
      check_grammar_and_typos (Except.error e) =
        .halted (classifierHalt ("check grammar") e) ∧
      validate_industry (Except.error e) =
        .halted (classifierHalt ("validate industry") e) ∧
      (∀ (industry : String) (results : List Document), 6 ≤ results.length →
        rerank_results industry results (Except.error e) =
          .halted (classifierHalt ("re-rank results") e)) ∧
      classifierHalt ("check grammar") e =
        ["⚠️ **API Error**: Failed to check grammar. Error: " ++ e.str,
         "Please verify your API key is valid and has sufficient quota."] ∧
      (∀ e' : PyExc, e.str = e'.str →
        check_grammar_and_typos (Except.error e) =
          check_grammar_and_typos (Except.error e')) := by
  intro e
  refine ⟨rfl, rfl, ?_, rfl, ?_⟩
  · intro industry results h
    have h6 : ¬ results.length < 6 := by omega
    simp [rerank_results, h6]
  · intro e' hstr
    simp [check_grammar_and_typos, classifierHalt, hstr]

/-- Witness for C8 (amended) at a concrete failure and six documents. -/
theorem C8_witness :
    rerank_results ("Fintech")
      [⟨none, none, ""⟩, ⟨none, none, ""⟩, ⟨none, none, ""⟩,
       ⟨none, none, ""⟩, ⟨none, none, ""⟩, ⟨none, none, ""⟩]
      (Except.error (PyExc.jsonError ("Expecting value"))) =
    StepResult.halted (classifierHalt ("re-rank results")
      (PyExc.jsonError ("Expecting value"))) :=
  (C8_classifier_error_policy (PyExc.jsonError ("Expecting value"))).2.2.1
    ("Fintech")
    [⟨none, none, ""⟩, ⟨none, none, ""⟩, ⟨none, none, ""⟩,
     ⟨none, none, ""⟩, ⟨none, none, ""⟩, ⟨none, none, ""⟩]
    (by decide)

/-! ## Claim C9: trim fallback is non-fatal -/

/-- C9: when the primary report model fails on the trim prompt, `trim_report`
invokes the fallback model on the same prompt; if the fallback also fails it
returns the input report text unchanged together with a warning, and the
pipeline run still completes with a report artifact (no `st.stop`). -/
theorem C9_trim_fallback :
    ∀ (report_llm llm : Str → Except String Str) (report_text : Str)
      (target_words : Nat) (e : String),
      report_llm (mkTrimPrompt target_words report_text) = .error e →
      ((∀ t : Str, llm (mkTrimPrompt target_words report_text) = .ok t →
          trim_report report_llm llm report_text target_words = (t, [trimBackupInfo])) ∧
       (∀ e' : String, llm (mkTrimPrompt target_words report_text) = .error e' →
          trim_report report_llm llm report_text target_words =
            (report_text, [trimFailErr e', trimFailWarn]) ∧
          (∀ (llm_gen : Except String Str) (raw : Str),
            ∃ r : ReportResult,
              generate_report_with_validation (.ok raw) llm_gen report_llm llm = .ok r))) := by
  intro report_llm llm report_text target_words e he
  constructor
  · intro t ht
    simp [trim_report, he, ht]
  · intro e' he'
    refine ⟨by simp [trim_report, he, he'], ?_⟩
    intro llm_gen raw
    exact ⟨_, rfl⟩

/-- Witness for C9: both trim models fail, the text comes back unchanged with
the warning messages. -/
theorem C9_witness :
    trim_report (fun _ => Except.error ("boom")) (fun _ => Except.error ("boom2"))
      (("R").toList) 480 =
    ((("R").toList), [trimFailErr ("boom2"), trimFailWarn]) :=
  ((C9_trim_fallback (fun _ => Except.error ("boom")) (fun _ => Except.error ("boom2"))
      (("R").toList) 480 ("boom") rfl).2 ("boom2") rfl).1

/-! ## Claim C1: length-convergence policy -/

/-- C1: for a synthesized (cleaned) text of more than 500 words the controller
issues exactly one trim call and returns status `"trimmed"` with no further
iteration; for a word count in `[400, 500]` it returns status `"success"`
with zero corrective calls. -/
theorem C1_length_convergence :
    ∀ (report_llm llm : Str → Except String Str) (report_text : Str)
      (model_used : String),
      (500 < countWords report_text →
        (lengthControl report_llm llm report_text model_used).status = "trimmed" ∧
        (lengthControl report_llm llm report_text model_used).trim_calls = 1) ∧
      (400 ≤ countWords report_text → countWords report_text ≤ 500 →
        (lengthControl report_llm llm report_text model_used).status = "success" ∧
        (lengthControl report_llm llm report_text model_used).trim_calls = 0) := by
  intro report_llm llm report_text model_used
  constructor
  · intro h
    have h' : ¬ countWords report_text ≤ 500 := by omega
    simp [lengthControl, h']
  · intro h1 h2
    simp [lengthControl, h2]

set_option maxRecDepth 100000 in
/-- Witness for C1: a 501-word text is trimmed once; a 450-word text is
accepted with no corrective call. -/
theorem C1_witness :
    ((lengthControl (fun _ => Except.ok []) (fun _ => Except.ok [])
        (mkWords 501) ("m")).status = "trimmed" ∧
     (lengthControl (fun _ => Except.ok []) (fun _ => Except.ok [])
        (mkWords 501) ("m")).trim_calls = 1) ∧
    ((lengthControl (fun _ => Except.ok []) (fun _ => Except.ok [])
        (mkWords 450) ("m")).status = "success" ∧
     (lengthControl (fun _ => Except.ok []) (fun _ => Except.ok [])
        (mkWords 450) ("m")).trim_calls = 0) :=
  ⟨(C1_length_convergence (fun _ => Except.ok []) (fun _ => Except.ok [])
      (mkWords 501) ("m")).1 (by decide),
   (C1_length_convergence (fun _ => Except.ok []) (fun _ => Except.ok [])
      (mkWords 450) ("m")).2 (by decide) (by decide)⟩

/-! ## Claim C2: there is no expand path -/

set_option maxRecDepth 100000 in
/-- C2 counterexample: a 300-word synthesized text (word count below 400) is
returned with status `"success"` and zero corrective calls — no expand call
is issued and the status is not `"expanded"`, contradicting the claim. -/
theorem C2_counterexample :
    (lengthControl (fun _ => Except.ok []) (fun _ => Except.ok [])
        (mkWords 300) ("m")).word_count = 300 ∧
    300 < 400 ∧
    (lengthControl (fun _ => Except.ok []) (fun _ => Except.ok [])
        (mkWords 300) ("m")).status = "success" ∧
    (lengthControl (fun _ => Except.ok []) (fun _ => Except.ok [])
        (mkWords 300) ("m")).status ≠ "expanded" ∧
    (lengthControl (fun _ => Except.ok []) (fun _ => Except.ok [])
        (mkWords 300) ("m")).trim_calls = 0 := by
  decide

/-- C2 (amended): any word count of at most 500 — including every count below
400 — is accepted as `"success"` with zero corrective calls; the controller
has no expand operation and its status ranges over `{success, trimmed}`
only. -/
theorem C2_acceptance_policy :
    ∀ (report_llm llm : Str → Except String Str) (report_text : Str)
      (model_used : String),
      (countWords report_text < 400 →
        (lengthControl report_llm llm report_text model_used).status = "success" ∧
        (lengthControl report_llm llm report_text model_used).trim_calls = 0) ∧
      ((lengthControl report_llm llm report_text model_used).status = "success" ∨
       (lengthControl report_llm llm report_text model_used).status = "trimmed") := by
  intro report_llm llm report_text model_used
  constructor
  · intro h
    have h' : countWords report_text ≤ 500 := by omega
    simp [lengthControl, h']
  · by_cases h : countWords report_text ≤ 500 <;> simp [lengthControl, h]

set_option maxRecDepth 100000 in
/-- Witness for C2 (amended) at a concrete 399-word text. -/
theorem C2_witness :
    (lengthControl (fun _ => Except.ok []) (fun _ => Except.ok [])
        (mkWords 399) ("m")).status = "success" ∧
    (lengthControl (fun _ => Except.ok []) (fun _ => Except.ok [])
        (mkWords 399) ("m")).trim_calls = 0 :=
  (C2_acceptance_policy (fun _ => Except.ok []) (fun _ => Except.ok [])
    (mkWords 399) ("m")).1 (by decide)

/-! ## Claim C3: band invariant and warning -/

set_option maxRecDepth 100000 in
/-- C3 counterexample: a 350-word synthesis is cached with word count 350 —
outside `[400, 500]` — and status `"success"`, although no trim or expand
attempt was made (let alone failed), contradicting the claimed invariant
that out-of-band counts occur only when both corrective attempts fail. -/
theorem C3_counterexample :
    (lengthControl (fun _ => Except.ok []) (fun _ => Except.ok [])
        (mkWords 350) ("m")).word_count = 350 ∧
    ¬(400 ≤ 350 ∧ 350 ≤ 500) ∧
    (lengthControl (fun _ => Except.ok []) (fun _ => Except.ok [])
        (mkWords 350) ("m")).status = "success" ∧
    (lengthControl (fun _ => Except.ok []) (fun _ => Except.ok [])
        (mkWords 350) ("m")).trim_calls = 0 := by
  decide

/-- C3 (amended): the final word count can lie outside `[400, 500]` even when
no corrective attempt failed (any count up to 500 is accepted as success, and
a trim result may itself be out of band), but the word-count display warns
whenever the final count is out of band and shows the success banner only
inside the band — an out-of-band count is never displayed as in-band
success. -/
theorem C3_band_warning :
    ∀ (report_llm llm : Str → Except String Str) (report_text : Str)
      (model_used : String),
      (¬(400 ≤ (lengthControl report_llm llm report_text model_used).word_count ∧
          (lengthControl report_llm llm report_text model_used).word_count ≤ 500) →
        word_count_display (lengthControl report_llm llm report_text model_used).word_count =
          WcBanner.warn (lengthControl report_llm llm report_text model_used).word_count) ∧
      ((400 ≤ (lengthControl report_llm llm report_text model_used).word_count ∧
          (lengthControl report_llm llm report_text model_used).word_count ≤ 500) →
        word_count_display (lengthControl report_llm llm report_text model_used).word_count =
          WcBanner.ok (lengthControl report_llm llm report_text model_used).word_count) := by
  intro report_llm llm report_text model_used
  constructor <;> intro h <;> simp [word_count_display, h]

set_option maxRecDepth 100000 in
/-- Witness for C3 (amended): the 350-word artifact is displayed with the
warning banner. -/
theorem C3_witness :
    word_count_display (lengthControl (fun _ => Except.ok []) (fun _ => Except.ok [])
        (mkWords 350) ("m")).word_count =
      WcBanner.warn (lengthControl (fun _ => Except.ok []) (fun _ => Except.ok [])
        (mkWords 350) ("m")).word_count :=
  (C3_band_warning (fun _ => Except.ok []) (fun _ => Except.ok [])
    (mkWords 350) ("m")).1 (by decide)

/-! ## Claim C10: reported word count is recomputed -/

/-- C10: in every non-aborting execution of `generate_report_with_validation`
the returned word count equals the whitespace-token count of the returned
report text, in both the accepted and the trimmed branches. -/
theorem C10_word_count_recomputed :
    ∀ (report_llm_gen llm_gen : Except String Str)
      (report_llm llm : Str → Except String Str) (r : ReportResult),
      generate_report_with_validation report_llm_gen llm_gen report_llm llm = .ok r →
      r.word_count = countWords r.report_text := by
  intro rg lg rl ll r h
  have key : ∀ (rt : Str) (m : String),
      (lengthControl rl ll rt m).word_count =
        countWords (lengthControl rl ll rt m).report_text := by
    intro rt m
    by_cases hc : countWords rt ≤ 500 <;> simp [lengthControl, hc]
  cases rg with
  | ok raw =>
    simp only [generate_report_with_validation, GenOutcome.ok.injEq] at h
    rw [← h]
    exact key _ _
  | error e =>
    cases lg with
    | ok raw =>
      simp only [generate_report_with_validation, GenOutcome.ok.injEq] at h
      rw [← h]
      exact key _ _
    | error e' =>
      simp [generate_report_with_validation] at h

/-- Witness for C10 along the primary-synthesis path at a concrete input. -/
theorem C10_witness :
    (lengthControl (fun _ => Except.ok []) (fun _ => Except.ok [])
        (sanitize_markdown (clean_report_text (mkWords 5)))
        ("Gemini 2.5-flash-lite")).word_count =
      countWords (lengthControl (fun _ => Except.ok []) (fun _ => Except.ok [])
        (sanitize_markdown (clean_report_text (mkWords 5)))
        ("Gemini 2.5-flash-lite")).report_text :=
  C10_word_count_recomputed (Except.ok (mkWords 5)) (Except.ok [])
    (fun _ => Except.ok []) (fun _ => Except.ok [])
    (lengthControl (fun _ => Except.ok []) (fun _ => Except.ok [])
      (sanitize_markdown (clean_report_text (mkWords 5)))
      ("Gemini 2.5-flash-lite")) rfl

/-! ## Claim C6: idempotence of the markdown sanitizer -/

theorem joinNl_cons (l : Str) (ls : List Str) (hls : ls ≠ []) :
    joinNl (l :: ls) = l ++ '\n' :: joinNl ls := by
  cases ls with
  | nil => exact absurd rfl hls
  | cons l' ls' => rfl

/-- Splitting the newline-join of newline-free lines recovers the lines. -/
theorem splitOnP_joinNl (ls : List Str) (hne : ls ≠ [])
    (hfree : ∀ l ∈ ls, ∀ c ∈ l, (c == '\n') = false) :
    splitOnP (fun c => c == '\n') (joinNl ls) = ls := by
  induction ls with
  | nil => exact absurd rfl hne
  | cons l ls ih =>
    cases ls with
    | nil =>
      show splitOnP (fun c => c == '\n') (joinNl [l]) = [l]
      exact splitOnP_of_no_sep _ l (hfree l (by simp))
    | cons l' ls' =>
      rw [joinNl_cons l (l' :: ls') (by simp)]
      rw [splitOnP_append_sep _ l _ '\n' (by simp) (hfree l (by simp))]
      rw [ih (by simp) (fun a ha c hc => hfree a (by simp [ha]) c hc)]

theorem countc_cons_zero (c a : Char) (r : Str) (h : countc c (a :: r) = 0) :
    a ≠ c ∧ countc c r = 0 := by
  have hall := (countc_eq_zero_iff c (a :: r)).mp h
  refine ⟨hall a (by simp), ?_⟩
  rw [countc_eq_zero_iff]
  exact fun b hb => hall b (by simp [hb])

theorem countc_protectWithF_zero (x m : Char) (f : Nat) (s : Str)
    (hLB : countc x LBmark = 0) (hRB : countc x RBmark = 0)
    (hs : countc x s = 0) : countc x (protectWithF m f s) = 0 := by
  induction f generalizing s with
  | zero => simpa [protectWithF] using hs
  | succ f ih =>
    match s with
    | [] => simp [protectWithF, countc]
    | [c] => simpa [protectWithF] using hs
    | a :: b :: t =>
      obtain ⟨ha, hbt'⟩ := countc_cons_zero x a (b :: t) hs
      obtain ⟨hb, ht⟩ := countc_cons_zero x b t hbt'
      by_cases hm : a = m ∧ b = m
      · cases hp : findPairFrom1 m t with
        | none =>
          simp only [protectWithF, if_pos hm, hp]
          simp [countc, ha, ih _ hbt']
        | some j =>
          have htake : countc x (List.take j t) = 0 := by
            have := countc_take_le x j t
            omega
          have hdrop : countc x (List.drop (j + 2) t) = 0 := by
            have := countc_drop_le x (j + 2) t
            omega
          simp only [protectWithF, if_pos hm, hp]
          simp [countc_append, hLB, hRB, htake, ih _ hdrop]
      · simp only [protectWithF, if_neg hm]
        simp [countc, ha, ih _ hbt']

theorem countc_rcbF_zero (x : Char) (f : Nat) (s : Str)
    (hs : countc x s = 0) : countc x (rcbF f s) = 0 := by
  induction f generalizing s with
  | zero => simpa [rcbF] using hs
  | succ f ih =>
    cases s with
    | nil => simp [rcbF, countc]
    | cons c rest =>
      obtain ⟨hc, hrest⟩ := countc_cons_zero x c rest hs
      have hdropAll : ∀ k, countc x (List.drop k rest) = 0 := by
        intro k
        have := countc_drop_le x k rest
        omega
      by_cases hpre : pyStarts bt3 (c :: rest) = true
      · have hdd : List.drop 3 (c :: rest) = List.drop 2 rest := rfl
        cases hp : findBt3 (List.drop 2 rest) with
        | none =>
          simp only [rcbF, hpre, if_true, hdd, hp]
          simp [countc, hc, ih _ hrest]
        | some j =>
          simp only [rcbF, hpre, if_true, hdd, hp]
          apply ih
          have h1 := countc_drop_le x (j + 3) (List.drop 2 rest)
          have h2 := hdropAll 2
          omega
      · simp only [rcbF, hpre, Bool.false_eq_true, if_false]
        simp [countc, hc, ih _ hrest]

theorem rcbF_id_of_no_bt (f : Nat) (s : Str)
    (hs : countc btChar s = 0) : rcbF f s = s := by
  induction f generalizing s with
  | zero => simp [rcbF]
  | succ f ih =>
    cases s with
    | nil => simp [rcbF]
    | cons c rest =>
      obtain ⟨hc, hrest⟩ := countc_cons_zero btChar c rest hs
      have hpre : pyStarts bt3 (c :: rest) = false :=
        pyStarts_false_of_head_ne btChar [btChar, btChar] c rest (fun h => hc h.symm)
      simp [rcbF, hpre, ih _ hrest]

/-- Zero-count of any character absent from the protection markers and from
`**` survives the whole repair. -/
theorem countc_sanitizeFix_zero (x : Char) (l2 : Str)
    (hLB : countc x LBmark = 0) (hRB : countc x RBmark = 0)
    (hss : countc x ['*', '*'] = 0) (hx : countc x l2 = 0) :
    countc x (sanitizeFix l2) = 0 := by
  unfold sanitizeFix
  apply countc_pyReplaceF_zero x RBmark _ _ _ hss
  apply countc_pyReplaceF_zero x LBmark _ _ _ hss
  apply countc_pyReplaceF_zero x ['_'] _ _ _ (by simp [countc])
  apply countc_pyReplaceF_zero x ['*'] _ _ _ (by simp [countc])
  apply countc_protectWithF_zero x '_' _ _ hLB hRB
  exact countc_protectWithF_zero x '*' _ _ hLB hRB hx

/-- Output counts of the repair: no backtick enters, the asterisk count is
even (all asterisks come from restored `**` markers), and no underscore
survives. -/
theorem sanitizeFix_props (l2 : Str) (hbt : countc btChar l2 = 0) :
    countc btChar (sanitizeFix l2) = 0 ∧
    countc '*' (sanitizeFix l2) % 2 = 0 ∧
    countc '_' (sanitizeFix l2) = 0 := by
  refine ⟨countc_sanitizeFix_zero btChar l2 (by decide) (by decide) (by decide) hbt, ?_, ?_⟩
  · unfold sanitizeFix
    have h5 : countc '*'
        (pyReplace ['*'] []
          (protectWithF '_' (protectWithF '*' l2.length l2).length
            (protectWithF '*' l2.length l2))) = 0 :=
      countc_pyReplaceF_single '*' _ _ (Nat.le_refl _)
    have h6 : countc '*'
        (pyReplace ['_'] []
          (pyReplace ['*'] []
            (protectWithF '_' (protectWithF '*' l2.length l2).length
              (protectWithF '*' l2.length l2)))) = 0 :=
      countc_pyReplaceF_zero '*' ['_'] [] _ _ (by simp [countc]) h5
    have h7 := countc_pyReplaceF_parity '*' LBmark ['*', '*']
      (pyReplace ['_'] []
        (pyReplace ['*'] []
          (protectWithF '_' (protectWithF '*' l2.length l2).length
            (protectWithF '*' l2.length l2)))).length
      (pyReplace ['_'] []
        (pyReplace ['*'] []
          (protectWithF '_' (protectWithF '*' l2.length l2).length
            (protectWithF '*' l2.length l2))))
      (by decide) (by decide)
    have h8 := countc_pyReplaceF_parity '*' RBmark ['*', '*']
      (pyReplace LBmark ['*', '*']
        (pyReplace ['_'] []
          (pyReplace ['*'] []
            (protectWithF '_' (protectWithF '*' l2.length l2).length
              (protectWithF '*' l2.length l2))))).length
      (pyReplace LBmark ['*', '*']
        (pyReplace ['_'] []
          (pyReplace ['*'] []
            (protectWithF '_' (protectWithF '*' l2.length l2).length
              (protectWithF '*' l2.length l2)))))
      (by decide) (by decide)
    unfold pyReplace at h5 h6 h7 h8 ⊢
    omega
  · unfold sanitizeFix
    apply countc_pyReplaceF_zero '_' RBmark _ _ _ (by decide)
    apply countc_pyReplaceF_zero '_' LBmark _ _ _ (by decide)
    exact countc_pyReplaceF_single '_' _ _ (Nat.le_refl _)

/-- Output counts of the conditional repair. -/
theorem sanitizeBody_props (l2 : Str) (hbt : countc btChar l2 = 0) :
    countc btChar (sanitizeBody l2) = 0 ∧
    countc '*' (sanitizeBody l2) % 2 = 0 ∧
    countc '_' (sanitizeBody l2) % 2 = 0 := by
  unfold sanitizeBody
  by_cases hcond : ((countc '*' l2 : Int) - (countPair '*' l2 : Int) * 2) % 2 ≠ 0 ∨
      ((countc '_' l2 : Int) - (countPair '_' l2 : Int) * 2) % 2 ≠ 0
  · rw [if_pos hcond]
    have h := sanitizeFix_props l2 hbt
    exact ⟨h.1, h.2.1, by simp [h.2.2]⟩
  · rw [if_neg hcond]
    push_neg at hcond
    refine ⟨hbt, ?_, ?_⟩ <;> omega

/-- Every output of `sanitizeLine` is either the untouched heading line or a
line with no backtick, an even number of `*`, and an even number of `_`. -/
theorem sanitizeLine_props (line : Str) :
    sanitizeLine line = line ∨
    (countc btChar (sanitizeLine line) = 0 ∧
     countc '*' (sanitizeLine line) % 2 = 0 ∧
     countc '_' (sanitizeLine line) % 2 = 0) := by
  by_cases hh : (pyStrip line).head? = some '#'
  · left
    simp [sanitizeLine, hh]
  · right
    have hout : sanitizeLine line =
        sanitizeBody (pyReplace [btChar] [] (rcbF line.length line)) := by
      simp [sanitizeLine, hh]
    rw [hout]
    apply sanitizeBody_props
    exact countc_pyReplaceF_single btChar _ _ (Nat.le_refl _)

/-- C6: the markdown sanitizer is idempotent — sanitizing twice equals
sanitizing once, so sanitized text is a fixed point of `sanitize_markdown`. -/
theorem C6_sanitize_idempotent :
    ∀ text : Str, sanitize_markdown (sanitize_markdown text) = sanitize_markdown text := by
  have line_idem : ∀ line : Str, sanitizeLine (sanitizeLine line) = sanitizeLine line := by
    intro line
    rcases sanitizeLine_props line with h | ⟨hbt, hast, hund⟩
    · rw [h]
      exact h
    · set out := sanitizeLine line with hout
      show sanitizeLine out = out
      have hcondf : ¬(((countc '*' out : Int) - (countPair '*' out : Int) * 2) % 2 ≠ 0 ∨
          ((countc '_' out : Int) - (countPair '_' out : Int) * 2) % 2 ≠ 0) := by
        push_neg
        constructor <;> omega
      unfold sanitizeLine
      by_cases hh : (pyStrip out).head? = some '#'
      · rw [if_pos hh]
      · rw [if_neg hh]
        have hrcb : rcbF out.length out = out := rcbF_id_of_no_bt _ _ hbt
        have hrep : pyReplace [btChar] [] out = out :=
          pyReplaceF_id_of_no_head btChar [] [] _ _ hbt
        rw [hrcb, hrep]
        unfold sanitizeBody
        rw [if_neg hcondf]
  intro text
  unfold sanitize_markdown
  have hfree : ∀ l ∈ (splitOnP (fun c => c == '\n') text).map sanitizeLine,
      ∀ c ∈ l, (c == '\n') = false := by
    intro l hl c hc
    obtain ⟨l0, hl0, rfl⟩ := List.mem_map.mp hl
    have h0 : ∀ a ∈ l0, (a == '\n') = false :=
      splitOnP_mem_false (fun c => c == '\n') text l0 hl0
    have h1 : countc '\n' l0 = 0 := by
      rw [countc_eq_zero_iff]
      intro a ha
      simpa using h0 a ha
    have h2 : countc '\n' (sanitizeLine l0) = 0 := by
      rcases sanitizeLine_props l0 with h | _
      · rw [h]; exact h1
      · have hbody : sanitizeLine l0 = l0 ∨ sanitizeLine l0 =
            sanitizeBody (pyReplace [btChar] [] (rcbF l0.length l0)) := by
          by_cases hh : (pyStrip l0).head? = some '#'
          · left; simp [sanitizeLine, hh]
          · right; simp [sanitizeLine, hh]
        rcases hbody with h | h
        · rw [h]; exact h1
        · rw [h]
          have hl2 : countc '\n' (pyReplace [btChar] [] (rcbF l0.length l0)) = 0 :=
            countc_pyReplaceF_zero '\n' [btChar] [] _ _ (by simp [countc])
              (countc_rcbF_zero '\n' _ _ h1)
          unfold sanitizeBody
          split_ifs with hc2
          · exact countc_sanitizeFix_zero '\n' _ (by decide) (by decide) (by decide) hl2
          · exact hl2
    have := (countc_eq_zero_iff '\n' (sanitizeLine l0)).mp h2 c hc
    simpa using this
  have hne : (splitOnP (fun c => c == '\n') text).map sanitizeLine ≠ [] := by
    intro h
    exact splitOnP_ne_nil (fun c => c == '\n') text (List.map_eq_nil_iff.mp h)
  rw [splitOnP_joinNl _ hne hfree, List.map_map]
  congr 1
  apply List.map_congr_left
  intro l _
  exact line_idem l

/-! ## Claim C7: `clean_report_text` and the word-count line -/

theorem head?_mem_str (l : Str) (c : Char) (h : l.head? = some c) : c ∈ l := by
  cases l with
  | nil => simp at h
  | cons a t =>
    simp at h
    simp [h]

theorem ws_not_w (c : Char) (h : pyIsSpace c = true) : isWw c = false := by
  simp only [pyIsSpace, Bool.or_eq_true, beq_iff_eq] at h
  rcases h with ((((rfl | rfl) | rfl) | rfl) | rfl) | rfl <;> decide

theorem ws_not_paren (c : Char) (h : pyIsSpace c = true) : c ≠ '(' := by
  simp only [pyIsSpace, Bool.or_eq_true, beq_iff_eq] at h
  rcases h with ((((rfl | rfl) | rfl) | rfl) | rfl) | rfl <;> decide

/-- The mandatory `[Ww]` item fails when the head is not `w`/`W`. -/
theorem matchF_chrW_none (f : Nat) (ps : List RItem) (s : Str)
    (h : ∀ c, s.head? = some c → isWw c = false) :
    matchItemsF f (.chr isWw :: ps) s = none := by
  cases f with
  | zero => rfl
  | succ f =>
    cases s with
    | nil => rfl
    | cons c r =>
      have := h c rfl
      simp [matchItemsF, this]

/-- `\s*[Ww]` fails when the first non-whitespace character is not `w`/`W`:
the star can only stop at whitespace prefixes, and whitespace is never
`w`/`W`. -/
theorem matchF_starws_chrW_none (f : Nat) (ps : List RItem) (s : Str)
    (h : ∀ c, (pyDropWhile pyIsSpace s).head? = some c → isWw c = false) :
    matchItemsF f (.star pyIsSpace :: .chr isWw :: ps) s = none := by
  induction s generalizing f with
  | nil =>
    cases f with
    | zero => rfl
    | succ f =>
      show matchItemsF f (.chr isWw :: ps) [] = none
      exact matchF_chrW_none f ps [] (by intro c hc; simp at hc)
  | cons c r ih =>
    cases f with
    | zero => rfl
    | succ f =>
      by_cases hc : pyIsSpace c = true
      · have hd : pyDropWhile pyIsSpace (c :: r) = pyDropWhile pyIsSpace r := by
          simp [pyDropWhile, hc]
        rw [hd] at h
        have h1 := ih f h
        have h2 := matchF_chrW_none f ps (c :: r) (by
          intro x hx
          simp at hx
          rw [← hx]
          exact ws_not_w c hc)
        simp [matchItemsF, hc, h1, h2]
      · have hd : pyDropWhile pyIsSpace (c :: r) = c :: r := by
          simp [pyDropWhile, hc]
        rw [hd] at h
        have h2 := matchF_chrW_none f ps (c :: r) h
        simp [matchItemsF, hc, h2]

/-- `\(?\s*[Ww]` fails when neither reading of the optional parenthesis can
reach a `w`/`W` as first non-whitespace character. -/
theorem matchF_optparen_none (f : Nat) (ps : List RItem) (s : Str)
    (h1 : ∀ c, (pyDropWhile pyIsSpace s).head? = some c → isWw c = false)
    (h2 : ∀ r, s = '(' :: r →
      ∀ c, (pyDropWhile pyIsSpace r).head? = some c → isWw c = false) :
    matchItemsF f
      (.optc (fun c => c == '(') :: .star pyIsSpace :: .chr isWw :: ps) s = none := by
  cases f with
  | zero => rfl
  | succ f =>
    cases s with
    | nil =>
      show matchItemsF f (.star pyIsSpace :: .chr isWw :: ps) [] = none
      exact matchF_starws_chrW_none f ps [] (by intro c hc; simp [pyDropWhile] at hc)
    | cons c r =>
      by_cases hc : (c == '(') = true
      · have hceq : c = '(' := by simpa using hc
        subst hceq
        have ha := matchF_starws_chrW_none f ps r (h2 r rfl)
        have hb := matchF_starws_chrW_none f ps ('(' :: r) h1
        simp [matchItemsF, ha, hb]
      · have hb := matchF_starws_chrW_none f ps (c :: r) h1
        simp [matchItemsF, hc, hb]

/-- Head of `linePat` (`^\s*\(?\s*[Ww]...`) fails under the same conditions,
stated on the whitespace-stripped input. -/
theorem matchF_linestar_none (f : Nat) (ps : List RItem) (s : Str)
    (h1 : ∀ c, (pyDropWhile pyIsSpace s).head? = some c → isWw c = false)
    (h2 : ∀ r, pyDropWhile pyIsSpace s = '(' :: r →
      ∀ c, (pyDropWhile pyIsSpace r).head? = some c → isWw c = false) :
    matchItemsF f
      (.star pyIsSpace :: .optc (fun c => c == '(') :: .star pyIsSpace ::
        .chr isWw :: ps) s = none := by
  induction s generalizing f with
  | nil =>
    cases f with
    | zero => rfl
    | succ f =>
      show matchItemsF f
        (.optc (fun c => c == '(') :: .star pyIsSpace :: .chr isWw :: ps) [] = none
      apply matchF_optparen_none f ps []
      · intro c hc
        simp [pyDropWhile] at hc
      · intro r hr
        simp [pyDropWhile] at hr
  | cons c r ih =>
    cases f with
    | zero => rfl
    | succ f =>
      by_cases hc : pyIsSpace c = true
      · have hd : pyDropWhile pyIsSpace (c :: r) = pyDropWhile pyIsSpace r := by
          simp [pyDropWhile, hc]
        rw [hd] at h1 h2
        have hfirst := ih f h1 h2
        have hsecond := matchF_optparen_none f ps (c :: r)
          (by rw [hd]; exact h1)
          (by
            intro r' hr'
            injection hr' with hr1 hr2
            exact absurd hr1 (ws_not_paren c hc))
        simp [matchItemsF, hc, hfirst, hsecond]
      · have hd : pyDropWhile pyIsSpace (c :: r) = c :: r := by
          simp [pyDropWhile, hc]
        have hsecond := matchF_optparen_none f ps (c :: r) h1
          (fun r' hr' x hx => h2 r' (by rw [hd]; exact hr') x hx)
        simp [matchItemsF, hc, hsecond]

/-- `wcPat` cannot match inside a string without `w`/`W`. -/
theorem matchF_wcPat_none_of_wFree (f : Nat) (s : Str)
    (hs : ∀ c ∈ s, isWw c = false) : matchItemsF f wcPat s = none := by
  apply matchF_optparen_none f wcRest s
  · intro c hc
    exact hs c (pyDropWhile_mem _ _ _ (head?_mem_str _ _ hc))
  · intro r hr c hc
    have hcr : c ∈ r := pyDropWhile_mem _ _ _ (head?_mem_str _ _ hc)
    exact hs c (by rw [hr]; exact List.mem_cons_of_mem _ hcr)

/-- `linePat` cannot match a line without `w`/`W`. -/
theorem lineHasWC_false_of_wFree (l : Str)
    (hs : ∀ c ∈ l, isWw c = false) : lineHasWC l = false := by
  unfold lineHasWC linePat
  rw [matchF_linestar_none]
  · rfl
  · intro c hc
    exact hs c (pyDropWhile_mem _ _ _ (head?_mem_str _ _ hc))
  · intro r hr c hc
    have hcr : c ∈ r := pyDropWhile_mem _ _ _ (head?_mem_str _ _ hc)
    have : c ∈ pyDropWhile pyIsSpace l := by
      rw [hr]
      exact List.mem_cons_of_mem _ hcr
    exact hs c (pyDropWhile_mem _ _ _ this)

/-- First non-whitespace character of `A' ++ '\n' :: '(' :: rest` is either a
non-whitespace character of the `w`-free prefix `A'` or the parenthesis; in
either case it is not `w`/`W`. -/
theorem region_h1 (A' rest : Str) (hA : ∀ c ∈ A', isWw c = false) :
    ∀ c, (pyDropWhile pyIsSpace (A' ++ '\n' :: '(' :: rest)).head? = some c →
      isWw c = false := by
  induction A' with
  | nil =>
    intro c hc
    have hdw : pyDropWhile pyIsSpace (([] : Str) ++ '\n' :: '(' :: rest) =
        '(' :: rest := rfl
    rw [hdw] at hc
    simp at hc
    rw [← hc]
    decide
  | cons a A'' ih =>
    intro c hc
    by_cases ha : pyIsSpace a = true
    · have hdw : pyDropWhile pyIsSpace ((a :: A'') ++ '\n' :: '(' :: rest) =
          pyDropWhile pyIsSpace (A'' ++ '\n' :: '(' :: rest) := by
        simp [pyDropWhile, ha]
      rw [hdw] at hc
      exact ih (fun x hx => hA x (by simp [hx])) c hc
    · have hdw : pyDropWhile pyIsSpace ((a :: A'') ++ '\n' :: '(' :: rest) =
          a :: (A'' ++ '\n' :: '(' :: rest) := by
        simp [pyDropWhile, ha]
      rw [hdw] at hc
      simp at hc
      rw [← hc]
      exact hA a (by simp)

/-- When `A' ++ '\n' :: '(' :: rest` opens with a literal parenthesis, the
first non-whitespace character after it is still not `w`/`W`: the inner
parenthesis of the word-count line blocks the way. -/
theorem region_h2 (A' rest : Str) (hA : ∀ c ∈ A', isWw c = false) :
    ∀ r, (A' ++ '\n' :: '(' :: rest) = '(' :: r →
      ∀ c, (pyDropWhile pyIsSpace r).head? = some c → isWw c = false := by
  intro r hr c hc
  cases A' with
  | nil =>
    simp at hr
  | cons a A'' =>
    rw [List.cons_append] at hr
    injection hr with hr1 hr2
    subst hr2
    exact region_h1 A'' rest (fun x hx => hA x (by simp [hx])) c hc

/-- The substitution pattern matches the word-count line itself, consuming
exactly the line and leaving the following newline untouched. -/
theorem matchF_wcLine (B : Str) :
    matchItemsF (('(' :: (wcTail ++ '\n' :: B)).length + 40) wcPat
      ('(' :: (wcTail ++ '\n' :: B)) = some ('\n' :: B) := rfl

/-- The scan of `re.sub` leaves a `w`-free string unchanged. -/
theorem pySubWCF_id_of_wFree (f : Nat) (s : Str)
    (hs : ∀ c ∈ s, isWw c = false) : pySubWCF f s = s := by
  induction f generalizing s with
  | zero => rfl
  | succ f ih =>
    cases s with
    | nil => rfl
    | cons c rest =>
      have hm := matchF_wcPat_none_of_wFree ((c :: rest).length + 40) (c :: rest) hs
      simp only [pySubWCF, hm]
      rw [ih rest (fun x hx => hs x (by simp [hx]))]

/-- One scan step of `re.sub` when no match starts here. -/
theorem pySubWCF_step_none (f : Nat) (c : Char) (rest : Str)
    (hm : matchItemsF ((c :: rest).length + 40) wcPat (c :: rest) = none) :
    pySubWCF (f + 1) (c :: rest) = c :: pySubWCF f rest := by
  show (match matchItemsF ((c :: rest).length + 40) wcPat (c :: rest) with
       | some rem =>
         if rem.length < (c :: rest).length then pySubWCF f rem
         else c :: pySubWCF f rest
       | none => c :: pySubWCF f rest) = c :: pySubWCF f rest
  rw [hm]

/-- One scan step of `re.sub` on a match: drop the matched span and continue
after it. -/
theorem pySubWCF_step_match (f : Nat) (c : Char) (rest rem : Str)
    (hm : matchItemsF ((c :: rest).length + 40) wcPat (c :: rest) = some rem)
    (hlt : rem.length < (c :: rest).length) :
    pySubWCF (f + 1) (c :: rest) = pySubWCF f rem := by
  show (match matchItemsF ((c :: rest).length + 40) wcPat (c :: rest) with
       | some rem =>
         if rem.length < (c :: rest).length then pySubWCF f rem
         else c :: pySubWCF f rest
       | none => c :: pySubWCF f rest) = pySubWCF f rem
  rw [hm]
  show (if rem.length < (c :: rest).length then pySubWCF f rem
        else c :: pySubWCF f rest) = pySubWCF f rem
  rw [if_pos hlt]

/-- Scan of `re.sub` over `A' ++ '\n' ++ wcLine ++ '\n' ++ B` with `w`-free
`A'` and `B`: the only match is the word-count line itself, which is removed
in full, leaving the empty line between the two newlines. -/
theorem pySubWCF_region (A' B : Str) (hB : ∀ c ∈ B, isWw c = false) :
    ∀ f : Nat, (∀ c ∈ A', isWw c = false) → A'.length + 3 ≤ f →
    pySubWCF f (A' ++ '\n' :: wcLine ++ '\n' :: B) = A' ++ '\n' :: '\n' :: B := by
  induction A' with
  | nil =>
    intro f hA hf
    obtain ⟨f3, rfl⟩ : ∃ f3, f = f3 + 3 := ⟨f - 3, by simp at hf; omega⟩
    have hB' : ∀ c, (pyDropWhile pyIsSpace B).head? = some c → isWw c = false :=
      fun c hc => hB c (pyDropWhile_mem _ _ _ (head?_mem_str _ _ hc))
    have hm1 : matchItemsF ((('\n' :: (wcLine ++ '\n' :: B))).length + 40) wcPat
        ('\n' :: (wcLine ++ '\n' :: B)) = none := by
      apply matchF_optparen_none
      · intro c hc
        have hdw : pyDropWhile pyIsSpace ('\n' :: (wcLine ++ '\n' :: B)) =
            wcLine ++ '\n' :: B := rfl
        rw [hdw] at hc
        have hhd : (wcLine ++ '\n' :: B).head? = some '(' := rfl
        rw [hhd] at hc
        injection hc with hc'
        rw [← hc']
        decide
      · intro r hr
        injection hr with h1 h2
        exact absurd h1 (by decide)
    have hlenT : wcTail.length = 22 := rfl
    have hguard : (('\n' :: B) : Str).length <
        (('(' :: (wcTail ++ '\n' :: B)) : Str).length := by
      simp [List.length_append, hlenT]
      omega
    have hm3 : matchItemsF ((('\n' :: B) : Str).length + 40) wcPat ('\n' :: B) = none := by
      apply matchF_optparen_none
      · intro c hc
        have hdw : pyDropWhile pyIsSpace ('\n' :: B) = pyDropWhile pyIsSpace B := rfl
        rw [hdw] at hc
        exact hB' c hc
      · intro r hr
        injection hr with h1 h2
        exact absurd h1 (by decide)
    show pySubWCF (f3 + 3) ('\n' :: (wcLine ++ '\n' :: B)) = '\n' :: '\n' :: B
    calc pySubWCF (f3 + 2 + 1) ('\n' :: (wcLine ++ '\n' :: B))
        = '\n' :: pySubWCF (f3 + 2) (wcLine ++ '\n' :: B) :=
          pySubWCF_step_none (f3 + 2) _ _ hm1
      _ = '\n' :: pySubWCF (f3 + 1 + 1) ('(' :: (wcTail ++ '\n' :: B)) := rfl
      _ = '\n' :: pySubWCF (f3 + 1) ('\n' :: B) := by
          rw [pySubWCF_step_match (f3 + 1) '(' (wcTail ++ '\n' :: B) ('\n' :: B)
            (matchF_wcLine B) hguard]
      _ = '\n' :: ('\n' :: pySubWCF f3 B) := by
          rw [pySubWCF_step_none f3 _ _ hm3]
      _ = '\n' :: '\n' :: B := by
          rw [pySubWCF_id_of_wFree f3 B hB]
  | cons a A'' ih =>
    intro f hA hf
    obtain ⟨f1, rfl⟩ : ∃ f1, f = f1 + 1 := ⟨f - 1, by simp at hf; omega⟩
    have hA'' : ∀ c ∈ A'', isWw c = false := fun c hc => hA c (by simp [hc])
    have hm : matchItemsF (((a :: (A'' ++ '\n' :: wcLine ++ '\n' :: B)) : Str).length + 40)
        wcPat (a :: (A'' ++ '\n' :: wcLine ++ '\n' :: B)) = none := by
      have hw : wcLine = '(' :: wcTail := rfl
      have heq : (a :: (A'' ++ '\n' :: wcLine ++ '\n' :: B)) =
          (a :: A'') ++ '\n' :: '(' :: (wcTail ++ '\n' :: B) := by
        rw [hw]
        simp
      rw [heq]
      exact matchF_optparen_none _ wcRest _
        (region_h1 (a :: A'') (wcTail ++ '\n' :: B) hA)
        (region_h2 (a :: A'') (wcTail ++ '\n' :: B) hA)
    show pySubWCF (f1 + 1) (a :: (A'' ++ '\n' :: wcLine ++ '\n' :: B)) =
      a :: (A'' ++ '\n' :: '\n' :: B)
    calc pySubWCF (f1 + 1) (a :: (A'' ++ '\n' :: wcLine ++ '\n' :: B))
        = a :: pySubWCF f1 (A'' ++ '\n' :: wcLine ++ '\n' :: B) :=
          pySubWCF_step_none f1 _ _ hm
      _ = a :: (A'' ++ '\n' :: '\n' :: B) := by
          rw [ih f1 hA'' (by simp at hf; omega)]

/-- C7 counterexample: on `"A\n(Word Count: 437 words)\nB"` the function
yields `"A\n\nB"` — the word-count line's content is removed by the global
substitution before the line filter runs, so an empty line is left behind
instead of the line being removed entirely (which would give `"A\nB"`). -/
theorem C7_counterexample :
    clean_report_text (("A\n(Word Count: 437 words)\nB").toList) = ("A\n\nB").toList ∧
    clean_report_text (("A\n(Word Count: 437 words)\nB").toList) ≠ ("A\nB").toList := by
  decide

/-- Splitting distributes characters: every character of every piece comes
from the input. -/
theorem splitOnP_mem_chars (p : Char → Bool) (s : Str) :
    ∀ l ∈ splitOnP p s, ∀ c ∈ l, c ∈ s := by
  induction s with
  | nil => intro l hl c hc; simp [splitOnP] at hl; simp [hl] at hc
  | cons a rest ih =>
    intro l hl c hc
    simp only [splitOnP] at hl
    cases h : splitOnP p rest with
    | nil => exact absurd h (splitOnP_ne_nil p rest)
    | cons g gs =>
      rw [h] at hl
      by_cases hp : p a
      · simp [hp] at hl
        rcases hl with hl | hl | hl
        · simp [hl] at hc
        · exact List.mem_cons_of_mem _ (ih g (by simp [h]) c (hl ▸ hc))
        · exact List.mem_cons_of_mem _ (ih l (by simp [h, hl]) c hc)
      · simp [hp] at hl
        rcases hl with hl | hl
        · subst hl
          rcases List.mem_cons.mp hc with rfl | hc'
          · simp
          · exact List.mem_cons_of_mem _ (ih g (by simp [h]) c hc')
        · exact List.mem_cons_of_mem _ (ih l (by simp [h, hl]) c hc)

/-- Python's `'\n'.join(text.split('\n')) == text` round trip. -/
theorem joinNl_splitOnP_nl (t : Str) :
    joinNl (splitOnP (fun c => c == '\n') t) = t := by
  induction t with
  | nil => rfl
  | cons c rest ih =>
    simp only [splitOnP]
    cases h : splitOnP (fun c => c == '\n') rest with
    | nil => exact absurd h (splitOnP_ne_nil _ rest)
    | cons g gs =>
      rw [h] at ih
      by_cases hc : (c == '\n') = true
      · have hceq : c = '\n' := by simpa using hc
        subst hceq
        simp only [hc, if_true]
        rw [joinNl_cons [] (g :: gs) (by simp)]
        simp [ih]
      · simp only [hc, Bool.false_eq_true, if_false]
        cases gs with
        | nil =>
          show (c :: g : Str) = c :: rest
          have hg : (g : Str) = rest := ih
          rw [hg]
        | cons g' gs' =>
          rw [joinNl_cons (c :: g) (g' :: gs') (by simp)]
          rw [joinNl_cons g (g' :: gs') (by simp)] at ih
          rw [List.cons_append, ih]

/-- Unfolding of `clean_report_text`. -/
theorem clean_report_text_eq (text : Str) :
    clean_report_text text =
      pyStrip (joinNl ((splitOnP (fun c => c == '\n') (pySubWC text)).filter
        (fun line => !lineHasWC line))) := rfl

/-- On a `w`-free text the line filter keeps every line and the join-split
round trip rebuilds the text, so `clean_report_text`'s tail stages reduce to
the final strip. -/
theorem clean_of_wfree_strip (t : Str) (hW : ∀ c ∈ t, isWw c = false) :
    pyStrip (joinNl ((splitOnP (fun c => c == '\n') t).filter
      (fun line => !lineHasWC line))) = pyStrip t := by
  have hfilter : (splitOnP (fun c => c == '\n') t).filter
      (fun line => !lineHasWC line) = splitOnP (fun c => c == '\n') t := by
    rw [List.filter_eq_self]
    intro l hl
    have hwf : lineHasWC l = false := lineHasWC_false_of_wFree l
      (fun c hc => hW c (splitOnP_mem_chars _ t l hl c hc))
    simp [hwf]
  rw [hfilter, joinNl_splitOnP_nl]

theorem pyDropWhile_append (p : Char → Bool) (X Y : Str) :
    pyDropWhile p (X ++ Y) =
      (if pyDropWhile p X = [] then pyDropWhile p Y else pyDropWhile p X ++ Y) := by
  induction X with
  | nil => simp [pyDropWhile]
  | cons x X' ih =>
    by_cases hx : p x
    · simp only [List.cons_append, pyDropWhile, hx, if_true]
      exact ih
    · simp [pyDropWhile, hx]

/-- A trailing newline never survives the final strip. -/
theorem pyStrip_append_nl (A : Str) : pyStrip (A ++ ['\n']) = pyStrip A := by
  unfold pyStrip
  rw [pyDropWhile_append pyIsSpace A ['\n']]
  by_cases h : pyDropWhile pyIsSpace A = []
  · rw [if_pos h, h]
    rfl
  · rw [if_neg h]
    have hrev : (pyDropWhile pyIsSpace A ++ ['\n']).reverse =
        '\n' :: (pyDropWhile pyIsSpace A).reverse := by
      simp
    rw [hrev]
    have hstep : pyDropWhile pyIsSpace ('\n' :: (pyDropWhile pyIsSpace A).reverse) =
        pyDropWhile pyIsSpace ((pyDropWhile pyIsSpace A).reverse) := rfl
    rw [hstep]

/-- The substitution pattern consumes a word-count line that ends the text. -/
theorem matchF_wcLine_end :
    matchItemsF ((('(' :: wcTail) : Str).length + 40) wcPat ('(' :: wcTail) =
      some [] := rfl

/-- Scan of `re.sub` over `'\n' :: B` with `w`-free `B` keeps everything. -/
theorem pySubWCF_nl_wfree (B : Str) (hB : ∀ c ∈ B, isWw c = false) :
    ∀ f : Nat, pySubWCF f ('\n' :: B) = '\n' :: B := by
  intro f
  cases f with
  | zero => rfl
  | succ f =>
    have hm : matchItemsF ((('\n' :: B) : Str).length + 40) wcPat ('\n' :: B) = none := by
      apply matchF_optparen_none
      · intro c hc
        have hdw : pyDropWhile pyIsSpace ('\n' :: B) = pyDropWhile pyIsSpace B := rfl
        rw [hdw] at hc
        exact hB c (pyDropWhile_mem _ _ _ (head?_mem_str _ _ hc))
      · intro r hr
        injection hr with h1 h2
        exact absurd h1 (by decide)
    rw [pySubWCF_step_none f '\n' B hm, pySubWCF_id_of_wFree f B hB]

/-- Substitution over a text that starts with the word-count line: the line
is consumed, the rest is kept. -/
theorem pySubWC_first (B : Str) (hB : ∀ c ∈ B, isWw c = false) :
    pySubWC (wcLine ++ '\n' :: B) = '\n' :: B := by
  show pySubWCF ((wcLine ++ '\n' :: B) : Str).length (wcLine ++ '\n' :: B) = '\n' :: B
  calc pySubWCF ((wcTail ++ '\n' :: B).length + 1) ('(' :: (wcTail ++ '\n' :: B))
      = pySubWCF ((wcTail ++ '\n' :: B).length) ('\n' :: B) := by
        apply pySubWCF_step_match _ '(' (wcTail ++ '\n' :: B) ('\n' :: B) (matchF_wcLine B)
        have hlenT : wcTail.length = 22 := rfl
        simp [List.length_append, hlenT]
        omega
    _ = '\n' :: B := pySubWCF_nl_wfree B hB _

/-- Scan of `re.sub` over `A' ++ '\n' ++ wcLine` (the word-count line is the
last line): the line is removed, leaving the trailing newline. -/
theorem pySubWCF_region_end (A' : Str) :
    ∀ f : Nat, (∀ c ∈ A', isWw c = false) → A'.length + 2 ≤ f →
    pySubWCF f (A' ++ '\n' :: wcLine) = A' ++ ['\n'] := by
  induction A' with
  | nil =>
    intro f hA hf
    obtain ⟨f2, rfl⟩ : ∃ f2, f = f2 + 2 := ⟨f - 2, by simp at hf; omega⟩
    have hm1 : matchItemsF ((('\n' :: wcLine) : Str).length + 40) wcPat
        ('\n' :: wcLine) = none := by
      apply matchF_optparen_none
      · intro c hc
        have hdw : pyDropWhile pyIsSpace ('\n' :: wcLine) = wcLine := rfl
        rw [hdw] at hc
        have hhd : (wcLine : Str).head? = some '(' := rfl
        rw [hhd] at hc
        injection hc with hc'
        rw [← hc']
        decide
      · intro r hr
        injection hr with h1 h2
        exact absurd h1 (by decide)
    have hguard : (([] : Str)).length < (('(' :: wcTail) : Str).length := by decide
    show pySubWCF (f2 + 2) ('\n' :: wcLine) = ['\n']
    calc pySubWCF (f2 + 1 + 1) ('\n' :: wcLine)
        = '\n' :: pySubWCF (f2 + 1) wcLine := pySubWCF_step_none (f2 + 1) _ _ hm1
      _ = '\n' :: pySubWCF (f2 + 1) ('(' :: wcTail) := rfl
      _ = '\n' :: pySubWCF f2 [] := by
          rw [pySubWCF_step_match f2 '(' wcTail [] matchF_wcLine_end hguard]
      _ = ['\n'] := by cases f2 <;> rfl
  | cons a A'' ih =>
    intro f hA hf
    obtain ⟨f1, rfl⟩ : ∃ f1, f = f1 + 1 := ⟨f - 1, by simp at hf; omega⟩
    have hA'' : ∀ c ∈ A'', isWw c = false := fun c hc => hA c (by simp [hc])
    have hm : matchItemsF (((a :: (A'' ++ '\n' :: wcLine)) : Str).length + 40)
        wcPat (a :: (A'' ++ '\n' :: wcLine)) = none := by
      have hw : wcLine = '(' :: wcTail := rfl
      have heq : (a :: (A'' ++ '\n' :: wcLine)) =
          (a :: A'') ++ '\n' :: '(' :: wcTail := by
        rw [hw]
        simp
      rw [heq]
      exact matchF_optparen_none _ wcRest _
        (region_h1 (a :: A'') wcTail hA)
        (region_h2 (a :: A'') wcTail hA)
    show pySubWCF (f1 + 1) (a :: (A'' ++ '\n' :: wcLine)) = a :: (A'' ++ ['\n'])
    calc pySubWCF (f1 + 1) (a :: (A'' ++ '\n' :: wcLine))
        = a :: pySubWCF f1 (A'' ++ '\n' :: wcLine) := pySubWCF_step_none f1 _ _ hm
      _ = a :: (A'' ++ ['\n']) := by
          rw [ih f1 hA'' (by simp at hf; omega)]

/-- C7 (amended): for every text containing `"(Word Count: 437 words)"` as a
line — any such text is `A ++ '\n' ++ line ++ '\n' ++ B`, `line ++ '\n' ++ B`,
`A ++ '\n' ++ line`, or the line alone — provided the surrounding text `A`/`B`
contains no `w`/`W` (so no other word-count pattern can match or span lines)
and removing the line's content leaves no leading or trailing whitespace for
the final strip, `clean_report_text` empties the line before the line filter
runs: between two other lines an empty line remains in its place and all
other lines are unchanged; as first or last line (or alone) the final strip
also removes the resulting empty line and its adjacent newline, returning the
remainder unchanged. -/
theorem C7_wcline_cleanup :
    (∀ A B : Str,
      (∀ c ∈ A, isWw c = false) → (∀ c ∈ B, isWw c = false) →
      pyStrip (A ++ '\n' :: '\n' :: B) = A ++ '\n' :: '\n' :: B →
      clean_report_text (A ++ '\n' :: wcLine ++ '\n' :: B) =
        A ++ '\n' :: '\n' :: B) ∧
    (∀ B : Str, (∀ c ∈ B, isWw c = false) → pyStrip B = B →
      clean_report_text (wcLine ++ '\n' :: B) = B) ∧
    (∀ A : Str, (∀ c ∈ A, isWw c = false) → pyStrip A = A →
      clean_report_text (A ++ '\n' :: wcLine) = A) ∧
    clean_report_text wcLine = [] := by
  refine ⟨?_, ?_, ?_, by decide⟩
  · intro A B hA hB hstr
    have hsub : pySubWC (A ++ '\n' :: wcLine ++ '\n' :: B) =
        A ++ '\n' :: '\n' :: B := by
      unfold pySubWC
      apply pySubWCF_region A B hB _ hA
      have hwl : wcLine.length = 23 := rfl
      simp [List.length_append, hwl]
      omega
    have hW : ∀ c ∈ A ++ '\n' :: '\n' :: B, isWw c = false := by
      intro c hc
      simp at hc
      rcases hc with hc | rfl | hc
      · exact hA c hc
      · decide
      · exact hB c hc
    rw [clean_report_text_eq, hsub, clean_of_wfree_strip _ hW, hstr]
  · intro B hB hstr
    have hW : ∀ c ∈ ('\n' :: B : Str), isWw c = false := by
      intro c hc
      rcases List.mem_cons.mp hc with rfl | hc'
      · decide
      · exact hB c hc'
    rw [clean_report_text_eq, pySubWC_first B hB, clean_of_wfree_strip _ hW]
    have hnl : pyStrip ('\n' :: B) = pyStrip B := rfl
    rw [hnl, hstr]
  · intro A hA hstr
    have hsub : pySubWC (A ++ '\n' :: wcLine) = A ++ ['\n'] := by
      unfold pySubWC
      apply pySubWCF_region_end A _ hA
      have hwl : wcLine.length = 23 := rfl
      simp only [List.length_append, List.length_cons, hwl]
      omega
    have hW : ∀ c ∈ A ++ ['\n'], isWw c = false := by
      intro c hc
      simp at hc
      rcases hc with hc | rfl
      · exact hA c hc
      · decide
    rw [clean_report_text_eq, hsub, clean_of_wfree_strip _ hW, pyStrip_append_nl, hstr]

/-- Witness for C7 (amended), exercising the interior case (empty line left
behind) and the last-line case (line removed entirely by the strip) at
concrete inputs. -/
theorem C7_witness :
    clean_report_text (['A'] ++ '\n' :: wcLine ++ '\n' :: ['B']) =
      ['A'] ++ '\n' :: '\n' :: ['B'] ∧
    clean_report_text (['A'] ++ '\n' :: wcLine) = ['A'] :=
  ⟨C7_wcline_cleanup.1 ['A'] ['B'] (by decide) (by decide) (by decide),
   C7_wcline_cleanup.2.2.1 ['A'] (by decide) (by decide)⟩
